import Mathlib

/-!
Verification development for the calibration core of `ska-sdp-func-python`:
shallow embedding of `calibration/beamformer_utils.py` and
`calibration/chain_calibration.py`, together with theorems about the
embedded functions.

Machine floats are idealised as exact rationals (`ℚ`) for frequency /
weight / residual data and as complex numbers (`ℂ`) for gains.  Fallible
Python code (raising `ValueError` / `KeyError`) is embedded as
`Except String`.
-/

/-- Shallow embedding of `ska_sdp_datamodels` `GainTable`.

`gain` is the 5-d complex array indexed [time, antenna, channel,
receptor1, receptor2]; the five `n…` fields record the array shape
(`gain.shape`).  `weight` parallels `gain`; `residual` is indexed
[time, channel, receptor1, receptor2].  Array entries are modelled as
total functions on `ℕ`; only indices below the recorded shape are
meaningful. -/
structure GainTable where
  ntime : ℕ
  nants : ℕ
  nchan : ℕ
  nrec1 : ℕ
  nrec2 : ℕ
  gain : ℕ → ℕ → ℕ → ℕ → ℕ → ℂ
  weight : ℕ → ℕ → ℕ → ℕ → ℕ → ℚ
  residual : ℕ → ℕ → ℕ → ℕ → ℚ
  frequency : List ℚ
  time : List ℚ
  interval : List ℚ
  receptor_frame1 : String
  receptor_frame2 : String
  phasecentre : String
  configurationName : String
  jones_type : String

/-- Embedding of the per-tag record held in the calibration controls
dictionary built by `create_calibration_controls`.  The Python
`timeslice` field holds either the string "auto" or a number; it is
modelled as `Option ℚ` with `none` standing for "auto". -/
structure CalControl where
  shape : String
  timeslice : Option ℚ
  phase_only : Bool
  first_selfcal : ℤ

/-- Embedding of `create_calibration_controls`
(`chain_calibration.py`): the default controls dictionary, keyed by the
Jones-type tag.  Tags other than T, G, B are absent. -/
def create_calibration_controls : Char → Option CalControl := fun c =>
  if c = 'T' then some ⟨"scalar", none, true, 0⟩
  else if c = 'G' then some ⟨"vector", some 60, false, 0⟩
  else if c = 'B' then some ⟨"vector", some 100000, false, 0⟩
  else none

/-- `numpy.amin` on a list of rationals (0 on the empty list, which the
source never hits). -/
def aminQ : List ℚ → ℚ
  | [] => 0
  | x :: xs => xs.foldl min x

/-- `numpy.amax` on a list of rationals (0 on the empty list, which the
source never hits). -/
def amaxQ : List ℚ → ℚ
  | [] => 0
  | x :: xs => xs.foldl max x

/-- `numpy.round` on a scalar: round half to even. -/
def roundHalfEven (x : ℚ) : ℤ :=
  if x - ⌊x⌋ < 1/2 then ⌊x⌋
  else if 1/2 < x - ⌊x⌋ then ⌊x⌋ + 1
  else if ⌊x⌋ % 2 = 0 then ⌊x⌋ else ⌊x⌋ + 1

/-- `numpy.arange start stop step` for a positive rational `step`:
the arithmetic sequence `start, start+step, …` of length
`⌈(stop-start)/step⌉` (0 if that is negative). -/
def arangeQ (start stop step : ℚ) : List ℚ :=
  (List.range (⌈(stop - start) / step⌉).toNat).map fun (k : ℕ) => start + (k : ℚ) * step

/-- The array-type selection of `set_beamformer_frequencies`: an explicit
`array` argument wins; otherwise the array is inferred from the prefix of
the configuration name (`array_name.find("LOW") == 0` etc.), staying
`none` when neither prefix matches. -/
def infer_array (array_name : String) (array : Option String) : Option String :=
  match array with
  | some a => some a
  | none =>
      if array_name.startsWith "LOW" then some "LOW"
      else if array_name.startsWith "MID" then some "MID"
      else none

/-- Embedding of `set_beamformer_frequencies` (`beamformer_utils.py`):
generate the CBF beamformer frequency grid from a gain table's frequency
axis and an (optional, else inferred) array type. -/
def set_beamformer_frequencies (gain_table : GainTable)
    (array : Option String) : List ℚ :=
  let frequency_gt := gain_table.frequency
  let nfrequency_gt := frequency_gt.length
  if nfrequency_gt ≤ 1 then frequency_gt
  else
    let arr := infer_array gain_table.configurationName array
    if arr = some "LOW" then
      let dfrequency_bf : ℚ := 781250
      let starting_freq_bf : ℚ :=
        dfrequency_bf * roundHalfEven (aminQ frequency_gt / dfrequency_bf)
      arangeQ starting_freq_bf (amaxQ frequency_gt) dfrequency_bf
    else if arr = some "MID" then
      let dfrequency_bf : ℚ := 300000000 / 4096
      let starting_freq_bf : ℚ := aminQ frequency_gt
      arangeQ starting_freq_bf (amaxQ frequency_gt) dfrequency_bf
    else frequency_gt

/-- A concrete SKA-Low gain table whose minimum frequency
(2031250 Hz = 2.6 x 781250 Hz) snaps upward to the nearest multiple of
the LOW channel spacing. -/
def gtLowCex : GainTable where
  ntime := 1
  nants := 1
  nchan := 2
  nrec1 := 1
  nrec2 := 1
  gain := fun _ _ _ _ _ => 1
  weight := fun _ _ _ _ _ => 1
  residual := fun _ _ _ _ => 0
  frequency := [2031250, 7812500]
  time := [0]
  interval := [1]
  receptor_frame1 := "linear"
  receptor_frame2 := "linear"
  phasecentre := "pc"
  configurationName := "LOWTEST"
  jones_type := "B"

/-- A concrete SKA-Low gain table whose minimum frequency is an exact
multiple of the LOW channel spacing. -/
def gtLowWit : GainTable where
  ntime := 1
  nants := 1
  nchan := 2
  nrec1 := 1
  nrec2 := 1
  gain := fun _ _ _ _ _ => 1
  weight := fun _ _ _ _ _ => 1
  residual := fun _ _ _ _ => 0
  frequency := [1562500, 3125000]
  time := [0]
  interval := [1]
  receptor_frame1 := "linear"
  receptor_frame2 := "linear"
  phasecentre := "pc"
  configurationName := "LOWTEST"
  jones_type := "B"

/-- Embedding of `expand_delay_phase` (`beamformer_utils.py`): expand a
single-reference-frequency delay table (`jones_type` "K") to a list of
target frequencies via the linear phase model
`exp(1j * freq / frequency0 * phase0)`, with `freq` first shifted by
`-frequency0` in reference-to-centre mode.  `phase0` is `numpy.angle` of
the single-channel input gain; the output weight is all ones, the
residual all zeros and the Jones type becomes "B". -/
noncomputable def expand_delay_phase (gain_table : GainTable)
    (frequency : List ℚ) (reference_to_centre : Bool) : Except String GainTable :=
  if gain_table.jones_type ≠ "K" then
    Except.error "Wrong Jones type"
  else if gain_table.frequency.length ≠ 1 then
    Except.error "Expect a single frequency"
  else
    let frequency0 := gain_table.frequency.headD 0
    let phase0 : ℕ → ℕ → ℕ → ℕ → ℕ → ℝ := fun t a c r1 r2 =>
      (gain_table.gain t a c r1 r2).arg
    let gain : ℕ → ℕ → ℕ → ℕ → ℕ → ℂ := fun t a chan r1 r2 =>
      let freq := frequency.getD chan 0
      let freq := if reference_to_centre then freq - frequency0 else freq
      Complex.exp (Complex.I * (freq : ℂ) / (frequency0 : ℂ) *
        ((phase0 t a 0 r1 r2 : ℝ) : ℂ))
    Except.ok
      { ntime := gain_table.ntime
        nants := gain_table.nants
        nchan := frequency.length
        nrec1 := gain_table.nrec1
        nrec2 := gain_table.nrec2
        gain := gain
        weight := fun _ _ _ _ _ => 1
        residual := fun _ _ _ _ => 0
        frequency := frequency
        time := gain_table.time
        interval := gain_table.interval
        receptor_frame1 := gain_table.receptor_frame1
        receptor_frame2 := gain_table.receptor_frame1
        phasecentre := gain_table.phasecentre
        configurationName := gain_table.configurationName
        jones_type := "B" }

/-- A concrete delay ("K") gain table with a single reference frequency
of 2 Hz and constant gain `i` (phase pi/2). -/
noncomputable def gtK : GainTable where
  ntime := 1
  nants := 1
  nchan := 1
  nrec1 := 1
  nrec2 := 1
  gain := fun _ _ _ _ _ => Complex.I
  weight := fun _ _ _ _ _ => 1
  residual := fun _ _ _ _ => 0
  frequency := [2]
  time := [0]
  interval := [1]
  receptor_frame1 := "linear"
  receptor_frame2 := "linear"
  phasecentre := "pc"
  configurationName := "LOWTEST"
  jones_type := "K"

/-- Embedding of `_set_gaintable_product_shape` (`beamformer_utils.py`):
the shape checks and output shape of a GainTable product.  Receptor
coordinate shapes (`receptor1.shape` / `receptor2.shape`) are identified
with the corresponding gain-array dimensions `nrec1` / `nrec2`. -/
def set_gaintable_product_shape (gain_table1 gain_table2 : GainTable)
    (elementwise : Bool) : Except String (ℕ × ℕ × ℕ × ℕ × ℕ) :=
  if gain_table1.ntime ≠ gain_table2.ntime then
    Except.error "time error"
  else if gain_table1.nants ≠ gain_table2.nants then
    Except.error "antenna error"
  else if gain_table1.nchan ≠ gain_table2.nchan ∧
      gain_table1.nchan ≠ 1 ∧ gain_table2.nchan ≠ 1 then
    Except.error "frequency error"
  else if elementwise then
    if gain_table1.nrec1 ≠ gain_table2.nrec1 then
      Except.error "pol error dim3"
    else if gain_table1.nrec2 ≠ gain_table2.nrec2 then
      Except.error "pol error dim4"
    else
      Except.ok (gain_table1.ntime, gain_table1.nants,
        max gain_table1.nchan gain_table2.nchan,
        gain_table1.nrec1, gain_table2.nrec2)
  else
    if gain_table1.nrec2 ≠ gain_table2.nrec1 then
      Except.error "Matrices not compatible for multiplication"
    else
      Except.ok (gain_table1.ntime, gain_table1.nants,
        max gain_table1.nchan gain_table2.nchan,
        gain_table1.nrec1, gain_table2.nrec2)

/-- Embedding of `multiply_gaintable_jones` (`beamformer_utils.py`):
elementwise or matrix product of the per-(time, antenna, channel) Jones
matrices of two GainTables, broadcasting a single-channel operand across
all output channels. -/
noncomputable def multiply_gaintable_jones (gain_table1 gain_table2 : GainTable)
    (elementwise : Bool) : Except String GainTable :=
  if gain_table1.jones_type = "K" ∨ gain_table2.jones_type = "K" then
    Except.error "Cannot multiply delays. Use expand_delay_phase"
  else
    match set_gaintable_product_shape gain_table1 gain_table2 elementwise with
    | Except.error e => Except.error e
    | Except.ok (nt, na, nc, nr1, nr2) =>
        let chan1 : ℕ → ℕ := fun c => if gain_table1.nchan = 1 then 0 else c
        let chan2 : ℕ → ℕ := fun c => if gain_table2.nchan = 1 then 0 else c
        let gain : ℕ → ℕ → ℕ → ℕ → ℕ → ℂ := fun t a c r1 r2 =>
          if elementwise then
            gain_table1.gain t a (chan1 c) r1 r2 *
              gain_table2.gain t a (chan2 c) r1 r2
          else
            ∑ k ∈ Finset.range gain_table1.nrec2,
              gain_table1.gain t a (chan1 c) r1 k *
                gain_table2.gain t a (chan2 c) k r2
        let jones_type :=
          if gain_table1.jones_type = gain_table2.jones_type then
            gain_table1.jones_type
          else "B"
        if 1 < gain_table1.nchan then
          Except.ok
            { ntime := nt, nants := na, nchan := nc, nrec1 := nr1, nrec2 := nr2
              gain := gain
              weight := gain_table1.weight
              residual := gain_table1.residual
              frequency := gain_table1.frequency
              time := gain_table1.time
              interval := gain_table1.interval
              receptor_frame1 := gain_table1.receptor_frame1
              receptor_frame2 := gain_table1.receptor_frame1
              phasecentre := gain_table1.phasecentre
              configurationName := gain_table1.configurationName
              jones_type := jones_type }
        else
          Except.ok
            { ntime := nt, nants := na, nchan := nc, nrec1 := nr1, nrec2 := nr2
              gain := gain
              weight := gain_table2.weight
              residual := gain_table2.residual
              frequency := gain_table2.frequency
              time := gain_table1.time
              interval := gain_table1.interval
              receptor_frame1 := gain_table1.receptor_frame1
              receptor_frame2 := gain_table1.receptor_frame1
              phasecentre := gain_table1.phasecentre
              configurationName := gain_table1.configurationName
              jones_type := jones_type }

/-- A concrete two-channel "G" gain table, left operand for the Jones
multiplier witness. -/
noncomputable def gtMulA : GainTable where
  ntime := 1
  nants := 1
  nchan := 2
  nrec1 := 2
  nrec2 := 2
  gain := fun _ _ _ _ _ => 2
  weight := fun _ _ _ _ _ => 1
  residual := fun _ _ _ _ => 0
  frequency := [1000000, 2000000]
  time := [0]
  interval := [1]
  receptor_frame1 := "linear"
  receptor_frame2 := "linear"
  phasecentre := "pc"
  configurationName := "LOWTEST"
  jones_type := "G"

/-- A concrete single-channel "B" gain table, right operand for the Jones
multiplier witness (broadcast across the left operand's channels). -/
noncomputable def gtMulB : GainTable where
  ntime := 1
  nants := 1
  nchan := 1
  nrec1 := 2
  nrec2 := 2
  gain := fun _ _ _ _ _ => 3
  weight := fun _ _ _ _ _ => 1
  residual := fun _ _ _ _ => 0
  frequency := [1500000]
  time := [0]
  interval := [1]
  receptor_frame1 := "linear"
  receptor_frame2 := "linear"
  phasecentre := "pc"
  configurationName := "LOWTEST"
  jones_type := "B"

/-- Pointwise update of a tag-to-gaintable mapping (a Python dict
assignment `gaintables[c] = g`). -/
def updMap {G : Type} (m : Char → Option G) (c : Char) (g : G) :
    Char → Option G :=
  fun x => if x = c then some g else m x

/-- The per-tag iteration gate `iteration >= controls[c]["first_selfcal"]`,
`false` when the controls mapping has no entry for the tag. -/
def gatePasses (controls : Char → Option CalControl) (iteration : ℤ)
    (c : Char) : Bool :=
  match controls c with
  | some ctrl => decide (ctrl.first_selfcal ≤ iteration)
  | none => false

/-- The `changes` pre-scan of `apply_calibration_chain`: a tag qualifies
when the iteration gate passes AND the tag has a stored gain table; a
missing controls entry raises `KeyError`. -/
def chainChangesAux {G : Type} (gaintables : Char → Option G)
    (controls : Char → Option CalControl) (iteration : ℤ) :
    List Char → Bool → Except String Bool
  | [], b => Except.ok b
  | c :: cs, b =>
      match controls c with
      | none => Except.error "KeyError controls"
      | some ctrl =>
          chainChangesAux gaintables controls iteration cs
            (b || (decide (ctrl.first_selfcal ≤ iteration) &&
              (gaintables c).isSome))

/-- The apply loop of `apply_calibration_chain`: for every tag passing the
iteration gate alone, the stored table is looked up (`KeyError` when
absent) and its correction applied to the ORIGINAL visibility `vis`
(`avis = apply_gaintable(vis, gaintables[c])` in the source), overwriting
the accumulator `avis`. -/
def chainApplyAux {V G : Type} (apply_gaintable : V → G → V) (vis : V)
    (gaintables : Char → Option G) (controls : Char → Option CalControl)
    (iteration : ℤ) : List Char → Option V → Except String (Option V)
  | [], avis => Except.ok avis
  | c :: cs, avis =>
      match controls c with
      | none => Except.error "KeyError controls"
      | some ctrl =>
          if ctrl.first_selfcal ≤ iteration then
            match gaintables c with
            | none => Except.error "KeyError gaintables"
            | some g =>
                chainApplyAux apply_gaintable vis gaintables controls iteration
                  cs (some (apply_gaintable vis g))
          else
            chainApplyAux apply_gaintable vis gaintables controls iteration
              cs avis

/-- Embedding of `apply_calibration_chain` (`chain_calibration.py`),
parametric in the external `apply_gaintable` collaborator.  The returned
`avis` is unbound (Python `UnboundLocalError`) only if no tag passes the
iteration gate, which cannot happen when `changes` is true. -/
def apply_calibration_chain {V G : Type} (apply_gaintable : V → G → V)
    (vis : V) (gaintables : Char → Option G)
    (calibration_context : List Char) (controls : Char → Option CalControl)
    (iteration : ℤ) : Except String V :=
  match chainChangesAux gaintables controls iteration calibration_context
      false with
  | Except.error e => Except.error e
  | Except.ok changes =>
      if changes then
        match chainApplyAux apply_gaintable vis gaintables controls iteration
            calibration_context none with
        | Except.error e => Except.error e
        | Except.ok (some v) => Except.ok v
        | Except.ok none => Except.error "UnboundLocalError"
      else Except.ok vis

/-- The `changes` pre-scan of `calibrate_chain`: a tag qualifies when the
iteration gate alone passes. -/
def calSolveChangesAux (controls : Char → Option CalControl) (iteration : ℤ) :
    List Char → Bool → Except String Bool
  | [], b => Except.ok b
  | c :: cs, b =>
      match controls c with
      | none => Except.error "KeyError controls"
      | some ctrl =>
          calSolveChangesAux controls iteration cs
            (b || decide (ctrl.first_selfcal ≤ iteration))

/-- The solve-and-apply loop of `calibrate_chain`: for each tag passing
the iteration gate, create a gain table if absent, solve it, and apply
its inverse correction to the working visibility `avis` (cumulatively). -/
def calChainAux {V G : Type}
    (create_gaintable : V → Option ℚ → Char → G)
    (solve_gaintable : V → Option V → G → Bool → Bool → Option ℚ → ℚ → G)
    (apply_gaintable : V → G → Bool → V)
    (model_vis : Option V) (tol : ℚ)
    (controls : Char → Option CalControl) (iteration : ℤ) :
    List Char → V → (Char → Option G) → Except String (V × (Char → Option G))
  | [], avis, gts => Except.ok (avis, gts)
  | c :: cs, avis, gts =>
      match controls c with
      | none => Except.error "KeyError controls"
      | some ctrl =>
          if ctrl.first_selfcal ≤ iteration then
            let g0 := (gts c).getD (create_gaintable avis ctrl.timeslice c)
            let g1 := solve_gaintable avis model_vis g0 ctrl.phase_only
              (ctrl.shape == "matrix") ctrl.timeslice tol
            calChainAux create_gaintable solve_gaintable apply_gaintable
              model_vis tol controls iteration cs
              (apply_gaintable avis g1 true) (updMap gts c g1)
          else
            calChainAux create_gaintable solve_gaintable apply_gaintable
              model_vis tol controls iteration cs avis gts

/-- Embedding of `calibrate_chain` (`chain_calibration.py`), parametric in
the external `create_gaintable_from_visibility`, `solve_gaintable` and
`apply_gaintable` collaborators.  `solve_gaintable` receives
(observed, model, table, phase_only, crosspol = shape == "matrix",
timeslice, tol). -/
def calibrate_chain {V G : Type}
    (create_gaintable : V → Option ℚ → Char → G)
    (solve_gaintable : V → Option V → G → Bool → Bool → Option ℚ → ℚ → G)
    (apply_gaintable : V → G → Bool → V)
    (vis : V) (model_vis : Option V) (gaintables : Char → Option G)
    (calibration_context : List Char) (controls : Char → Option CalControl)
    (iteration : ℤ) (tol : ℚ) : Except String (V × (Char → Option G)) :=
  match calSolveChangesAux controls iteration calibration_context false with
  | Except.error e => Except.error e
  | Except.ok changes =>
      if changes then
        calChainAux create_gaintable solve_gaintable apply_gaintable model_vis
          tol controls iteration calibration_context vis gaintables
      else Except.ok (vis, gaintables)

/-- The data-validity gate of `solve_calibrate_chain`:
`numpy.max(numpy.abs(vis.visibility_acc.flagged_weight)) > 0.0 and
(amvis is None or numpy.max(numpy.abs(amvis.vis)) > 0.0)`, with the two
numpy reductions supplied as collaborator observation functions. -/
def dataValid {V : Type} (maxAbsFlaggedWeight : V → ℚ) (maxAbsVis : V → ℚ)
    (vis : V) (model_vis : Option V) : Bool :=
  decide (0 < maxAbsFlaggedWeight vis) &&
    (match model_vis with
     | none => true
     | some m => decide (0 < maxAbsVis m))

/-- One iteration of the per-tag loop of `solve_calibrate_chain` for a tag
whose controls entry is `ctrl`: create a gain table if the tag is missing
from the mapping (before any gate), then solve only when the iteration
gate and the data-validity gate both pass. -/
def solveChainStep {V G : Type}
    (maxAbsFlaggedWeight : V → ℚ) (maxAbsVis : V → ℚ)
    (create_gaintable : V → Option ℚ → Char → G)
    (solve_gaintable : V → Option V → G → Bool → Bool → Option ℚ → ℚ → G)
    (vis : V) (model_vis : Option V) (tol : ℚ) (ctrl : CalControl)
    (iteration : ℤ) (c : Char) (gts : Char → Option G) : Char → Option G :=
  let g0 := (gts c).getD (create_gaintable vis ctrl.timeslice c)
  let gts1 := updMap gts c g0
  if ctrl.first_selfcal ≤ iteration then
    if dataValid maxAbsFlaggedWeight maxAbsVis vis model_vis then
      updMap gts1 c (solve_gaintable vis model_vis g0
        ctrl.phase_only (ctrl.shape == "matrix") ctrl.timeslice tol)
    else gts1
  else gts1

/-- The per-tag loop of `solve_calibrate_chain`; a missing controls entry
raises `KeyError`.  The frequency-range values used only in log messages
are not modelled. -/
def solveChainAux {V G : Type}
    (maxAbsFlaggedWeight : V → ℚ) (maxAbsVis : V → ℚ)
    (create_gaintable : V → Option ℚ → Char → G)
    (solve_gaintable : V → Option V → G → Bool → Bool → Option ℚ → ℚ → G)
    (vis : V) (model_vis : Option V) (tol : ℚ)
    (controls : Char → Option CalControl) (iteration : ℤ) :
    List Char → (Char → Option G) → Except String (Char → Option G)
  | [], gts => Except.ok gts
  | c :: cs, gts =>
      match controls c with
      | none => Except.error "KeyError controls"
      | some ctrl =>
          solveChainAux maxAbsFlaggedWeight maxAbsVis create_gaintable
            solve_gaintable vis model_vis tol controls iteration cs
            (solveChainStep maxAbsFlaggedWeight maxAbsVis create_gaintable
              solve_gaintable vis model_vis tol ctrl iteration c gts)

/-- Embedding of `solve_calibrate_chain` (`chain_calibration.py`): the
conditional-solve mode.  It never touches the visibility and returns only
the updated gain-table mapping. -/
def solve_calibrate_chain {V G : Type}
    (maxAbsFlaggedWeight : V → ℚ) (maxAbsVis : V → ℚ)
    (create_gaintable : V → Option ℚ → Char → G)
    (solve_gaintable : V → Option V → G → Bool → Bool → Option ℚ → ℚ → G)
    (vis : V) (model_vis : Option V) (gaintables : Char → Option G)
    (calibration_context : List Char) (controls : Char → Option CalControl)
    (iteration : ℤ) (tol : ℚ) : Except String (Char → Option G) :=
  solveChainAux maxAbsFlaggedWeight maxAbsVis create_gaintable solve_gaintable
    vis model_vis tol controls iteration calibration_context gaintables

lemma foldl_min_le_init (xs : List ℚ) (a : ℚ) : xs.foldl min a ≤ a := by
  induction xs generalizing a with
  | nil => exact le_refl a
  | cons x xs ih =>
      calc (x :: xs).foldl min a = xs.foldl min (min a x) := rfl
        _ ≤ min a x := ih _
        _ ≤ a := min_le_left _ _

lemma le_foldl_max_init (xs : List ℚ) (a : ℚ) : a ≤ xs.foldl max a := by
  induction xs generalizing a with
  | nil => exact le_refl a
  | cons x xs ih =>
      calc a ≤ max a x := le_max_left _ _
        _ ≤ xs.foldl max (max a x) := ih _
        _ = (x :: xs).foldl max a := rfl

lemma foldl_max_le_of_mem (xs : List ℚ) (a x : ℚ) (hx : x ∈ xs) :
    x ≤ xs.foldl max a := by
  induction xs generalizing a with
  | nil => cases hx
  | cons y ys ih =>
      rcases List.mem_cons.mp hx with h | h
      · subst h
        calc x ≤ max a x := le_max_right _ _
          _ ≤ ys.foldl max (max a x) := le_foldl_max_init _ _
      · exact ih (a := max a y) h

lemma foldl_max_mem_or (xs : List ℚ) (a : ℚ) :
    xs.foldl max a = a ∨ xs.foldl max a ∈ xs := by
  induction xs generalizing a with
  | nil => exact Or.inl rfl
  | cons x xs ih =>
      rcases ih (max a x) with h | h
      · rcases max_cases a x with ⟨hm, _⟩ | ⟨hm, _⟩
        · exact Or.inl (by rw [show (x :: xs).foldl max a = xs.foldl max (max a x) from rfl, h, hm])
        · refine Or.inr (List.mem_cons.mpr (Or.inl ?_))
          rw [show (x :: xs).foldl max a = xs.foldl max (max a x) from rfl, h, hm]
      · exact Or.inr (List.mem_cons.mpr (Or.inr h))

lemma amaxQ_mem (l : List ℚ) (h : l ≠ []) : amaxQ l ∈ l := by
  cases l with
  | nil => exact absurd rfl h
  | cons x xs =>
      rcases foldl_max_mem_or xs x with h1 | h1
      · exact List.mem_cons.mpr (Or.inl (by simpa [amaxQ] using h1))
      · exact List.mem_cons.mpr (Or.inr (by simpa [amaxQ] using h1))

lemma le_amaxQ (l : List ℚ) (x : ℚ) (hx : x ∈ l) : x ≤ amaxQ l := by
  cases l with
  | nil => cases hx
  | cons y ys =>
      rcases List.mem_cons.mp hx with h | h
      · subst h; exact le_foldl_max_init _ _
      · exact foldl_max_le_of_mem _ _ _ h

lemma aminQ_le_head (x : ℚ) (xs : List ℚ) : aminQ (x :: xs) ≤ x :=
  foldl_min_le_init xs x

lemma arangeQ_length (s t d : ℚ) :
    (arangeQ s t d).length = (⌈(t - s) / d⌉).toNat := by
  unfold arangeQ
  rw [List.length_map, List.length_range]

lemma arangeQ_mem_lt (s t d x : ℚ) (hd : 0 < d) (hx : x ∈ arangeQ s t d) :
    x < t := by
  rcases List.mem_map.mp hx with ⟨k, hk, rfl⟩
  have hk' := List.mem_range.mp hk
  have hkz : (k : ℤ) < ⌈(t - s) / d⌉ := by omega
  have hq : (k : ℚ) < (t - s) / d := by
    exact_mod_cast Int.lt_ceil.mp hkz
  have : (k : ℚ) * d < t - s := (lt_div_iff₀ hd).mp hq
  linarith

lemma arangeQ_headD (s t d : ℚ) (hpos : 0 < ⌈(t - s) / d⌉) :
    (arangeQ s t d).headD 0 = s := by
  unfold arangeQ
  obtain ⟨m, hm⟩ : ∃ m, (⌈(t - s) / d⌉).toNat = m + 1 := by
    refine ⟨(⌈(t - s) / d⌉).toNat - 1, ?_⟩
    omega
  rw [hm, List.range_succ_eq_map]
  simp

lemma arangeQ_ne_nil (s t d : ℚ) (hpos : 0 < ⌈(t - s) / d⌉) :
    arangeQ s t d ≠ [] := by
  intro h
  have := arangeQ_length s t d
  rw [h] at this
  simp at this
  omega

lemma arangeQ_pos_of_ne_nil (s t d : ℚ) (h : arangeQ s t d ≠ []) :
    0 < ⌈(t - s) / d⌉ := by
  by_contra hc
  push_neg at hc
  apply h
  unfold arangeQ
  have : (⌈(t - s) / d⌉).toNat = 0 := by omega
  rw [this]
  rfl

lemma arangeQ_spacing (s t d : ℚ) (i : ℕ)
    (hi : i + 1 < (arangeQ s t d).length) (hi0 : i < (arangeQ s t d).length) :
    (arangeQ s t d).get ⟨i + 1, hi⟩ - (arangeQ s t d).get ⟨i, hi0⟩ = d := by
  unfold arangeQ at *
  simp only [List.get_eq_getElem, List.getElem_map, List.getElem_range]
  push_cast
  ring

lemma roundHalfEven_le (x : ℚ) : (roundHalfEven x : ℚ) ≤ x + 1/2 := by
  have hfl : (⌊x⌋ : ℚ) ≤ x := Int.floor_le x
  unfold roundHalfEven
  split_ifs with h1 h2 h3
  · linarith
  · push_cast
    linarith
  · linarith
  · push_cast
    linarith

lemma set_beamformer_frequencies_low (gt : GainTable) (array : Option String)
    (hlen : ¬ gt.frequency.length ≤ 1)
    (harr : infer_array gt.configurationName array = some "LOW") :
    set_beamformer_frequencies gt array =
      arangeQ (781250 * roundHalfEven (aminQ gt.frequency / 781250))
        (amaxQ gt.frequency) 781250 := by
  unfold set_beamformer_frequencies
  rw [if_neg hlen, harr]
  simp

lemma set_beamformer_frequencies_mid (gt : GainTable) (array : Option String)
    (hlen : ¬ gt.frequency.length ≤ 1)
    (harr : infer_array gt.configurationName array = some "MID") :
    set_beamformer_frequencies gt array =
      arangeQ (aminQ gt.frequency) (amaxQ gt.frequency) (300000000 / 4096) := by
  unfold set_beamformer_frequencies
  rw [if_neg hlen, harr]
  simp

lemma set_beamformer_frequencies_other (gt : GainTable) (array : Option String)
    (harr : infer_array gt.configurationName array ≠ some "LOW")
    (harr2 : infer_array gt.configurationName array ≠ some "MID") :
    set_beamformer_frequencies gt array = gt.frequency := by
  unfold set_beamformer_frequencies
  by_cases hlen : gt.frequency.length ≤ 1
  · rw [if_pos hlen]
  · rw [if_neg hlen, if_neg (by simpa using harr), if_neg (by simpa using harr2)]

lemma exists_two_of_len_ge_two (l : List ℚ) (hlen : 2 ≤ l.length) :
    ∃ x y rest, l = x :: y :: rest := by
  cases l with
  | nil => simp at hlen
  | cons x xs =>
      cases xs with
      | nil => simp at hlen
      | cons y rest => exact ⟨x, y, rest, rfl⟩

lemma aminQ_lt_amaxQ (l : List ℚ) (hsort : List.Chain' (fun x y => x < y) l)
    (hlen : 2 ≤ l.length) : aminQ l < amaxQ l := by
  obtain ⟨x, y, rest, rfl⟩ := exists_two_of_len_ge_two l hlen
  have hxy : x < y := (List.chain'_cons.mp hsort).1
  have h1 : aminQ (x :: y :: rest) ≤ x := aminQ_le_head _ _
  have h2 : y ≤ amaxQ (x :: y :: rest) :=
    le_amaxQ _ _ (List.mem_cons.mpr (Or.inr (List.mem_cons.mpr (Or.inl rfl))))
  linarith

/-- C7: `set_beamformer_frequencies` returns its input frequency axis
unchanged exactly in the two degenerate cases: the axis has length at most
one, or the (explicit or prefix-inferred) array type is neither "LOW" nor
"MID".  In every other case the output differs from the input. -/
theorem planner_returns_input_iff (gt : GainTable) (array : Option String) :
    set_beamformer_frequencies gt array = gt.frequency ↔
      (gt.frequency.length ≤ 1 ∨
        (infer_array gt.configurationName array ≠ some "LOW" ∧
         infer_array gt.configurationName array ≠ some "MID")) := by
  constructor
  · intro heq
    by_cases hlen : gt.frequency.length ≤ 1
    · exact Or.inl hlen
    · refine Or.inr ⟨?_, ?_⟩
      · intro harr
        have hne : gt.frequency ≠ [] := by
          intro h; rw [h] at hlen; simp at hlen
        have hbf := set_beamformer_frequencies_low gt array hlen harr
        have hmem : amaxQ gt.frequency ∈
            arangeQ (781250 * (roundHalfEven (aminQ gt.frequency / 781250) : ℚ))
              (amaxQ gt.frequency) 781250 := by
          rw [← hbf, heq]
          exact amaxQ_mem _ hne
        exact lt_irrefl _ (arangeQ_mem_lt _ _ _ _ (by norm_num) hmem)
      · intro harr
        have hne : gt.frequency ≠ [] := by
          intro h; rw [h] at hlen; simp at hlen
        have hbf := set_beamformer_frequencies_mid gt array hlen harr
        have hmem : amaxQ gt.frequency ∈
            arangeQ (aminQ gt.frequency) (amaxQ gt.frequency) (300000000 / 4096) := by
          rw [← hbf, heq]
          exact amaxQ_mem _ hne
        exact lt_irrefl _ (arangeQ_mem_lt _ _ _ _ (by norm_num) hmem)
  · intro h
    rcases h with hlen | ⟨h1, h2⟩
    · unfold set_beamformer_frequencies
      rw [if_pos hlen]
    · exact set_beamformer_frequencies_other gt array h1 h2

/-- C2 counterexample: with the LOW policy and input frequency axis
[2031250, 7812500] (strictly increasing, length 2), the first output
frequency is 2343750 Hz, which is strictly greater than the input minimum
frequency 2031250 Hz: the start is snapped to the nearest multiple of
781.25 kHz, which can round upward. -/
theorem planner_low_start_above_min :
    (set_beamformer_frequencies gtLowCex (some "LOW")).headD 0 = 2343750 ∧
    aminQ gtLowCex.frequency = 2031250 ∧
    ¬ (set_beamformer_frequencies gtLowCex (some "LOW")).headD 0 ≤
        aminQ gtLowCex.frequency := by
  have hfreq : gtLowCex.frequency = [2031250, 7812500] := rfl
  have hmin : aminQ gtLowCex.frequency = 2031250 := by
    rw [hfreq]
    show List.foldl min 2031250 [7812500] = 2031250
    simp only [List.foldl]
    exact min_eq_left (by norm_num)
  have hmax : amaxQ gtLowCex.frequency = 7812500 := by
    rw [hfreq]
    show List.foldl max 2031250 [7812500] = 7812500
    simp only [List.foldl]
    exact max_eq_right (by norm_num)
  have hlen : ¬ gtLowCex.frequency.length ≤ 1 := by rw [hfreq]; simp
  have harr : infer_array gtLowCex.configurationName (some "LOW") = some "LOW" := rfl
  have hfl : ⌊(13/5 : ℚ)⌋ = 2 := by
    norm_num [Int.floor_eq_iff]
  have hround : roundHalfEven (2031250 / 781250 : ℚ) = 3 := by
    have h135 : (2031250 / 781250 : ℚ) = 13/5 := by norm_num
    rw [h135]
    unfold roundHalfEven
    rw [hfl]
    norm_num
  have hstart : (781250 : ℚ) * (roundHalfEven (aminQ gtLowCex.frequency / 781250) : ℚ)
      = 2343750 := by
    rw [hmin, hround]
    norm_num
  have hbf := set_beamformer_frequencies_low gtLowCex (some "LOW") hlen harr
  have hpos : 0 < ⌈(amaxQ gtLowCex.frequency -
      781250 * (roundHalfEven (aminQ gtLowCex.frequency / 781250) : ℚ)) / 781250⌉ := by
    rw [hmax, hstart]
    exact Int.ceil_pos.mpr (by norm_num)
  have hhead : (set_beamformer_frequencies gtLowCex (some "LOW")).headD 0 = 2343750 := by
    rw [hbf, arangeQ_headD _ _ _ hpos, hstart]
  refine ⟨hhead, hmin, ?_⟩
  rw [hhead, hmin]
  norm_num

/-- C2 (amended): for every strictly increasing input frequency axis of
length at least 2 and policy "LOW" or "MID", consecutive output channels
are spaced exactly by the hardware constant of the policy (781.25 kHz for
LOW, 300 MHz / 4096 for MID); when the output is nonempty its first
frequency exceeds the input minimum by at most half the spacing (LOW
snaps the start to the nearest multiple of the spacing, which can round
upward), and for MID the output is nonempty with first frequency exactly
the input minimum. -/
theorem planner_spacing_exact_and_start_bound (gt : GainTable) (a : String)
    (hpol : a = "LOW" ∨ a = "MID")
    (hsort : List.Chain' (fun x y => x < y) gt.frequency)
    (hlen : 2 ≤ gt.frequency.length) :
    (∀ i (hi : i + 1 < (set_beamformer_frequencies gt (some a)).length)
        (hi0 : i < (set_beamformer_frequencies gt (some a)).length),
        (set_beamformer_frequencies gt (some a)).get ⟨i + 1, hi⟩ -
          (set_beamformer_frequencies gt (some a)).get ⟨i, hi0⟩ =
            (if a = "LOW" then 781250 else 300000000 / 4096)) ∧
    (set_beamformer_frequencies gt (some a) ≠ [] →
      (set_beamformer_frequencies gt (some a)).headD 0 ≤
        aminQ gt.frequency + (if a = "LOW" then 781250 else 300000000 / 4096) / 2) ∧
    (a = "MID" → set_beamformer_frequencies gt (some a) ≠ [] ∧
      (set_beamformer_frequencies gt (some a)).headD 0 = aminQ gt.frequency) := by
  have hlen' : ¬ gt.frequency.length ≤ 1 := by omega
  rcases hpol with rfl | rfl
  · have harr : infer_array gt.configurationName (some "LOW") = some "LOW" := rfl
    have hbf := set_beamformer_frequencies_low gt (some "LOW") hlen' harr
    refine ⟨?_, ?_, ?_⟩
    · intro i hi hi0
      rw [if_pos rfl]
      revert hi hi0
      rw [hbf]
      intro hi hi0
      exact arangeQ_spacing _ _ _ i hi hi0
    · intro hne
      rw [if_pos rfl]
      rw [hbf] at hne ⊢
      have hpos := arangeQ_pos_of_ne_nil _ _ _ hne
      rw [arangeQ_headD _ _ _ hpos]
      have hr := roundHalfEven_le (aminQ gt.frequency / 781250)
      have hmul : (781250 : ℚ) * (aminQ gt.frequency / 781250) = aminQ gt.frequency := by
        field_simp
      nlinarith
    · intro hMid
      exact absurd hMid (by decide)
  · have harr : infer_array gt.configurationName (some "MID") = some "MID" := rfl
    have hbf := set_beamformer_frequencies_mid gt (some "MID") hlen' harr
    have hLM : ¬ ("MID" : String) = "LOW" := by decide
    have hminmax := aminQ_lt_amaxQ gt.frequency hsort hlen
    have hpos : 0 < ⌈(amaxQ gt.frequency - aminQ gt.frequency) / (300000000 / 4096 : ℚ)⌉ :=
      Int.ceil_pos.mpr (div_pos (by linarith) (by norm_num))
    refine ⟨?_, ?_, ?_⟩
    · intro i hi hi0
      rw [if_neg hLM]
      revert hi hi0
      rw [hbf]
      intro hi hi0
      exact arangeQ_spacing _ _ _ i hi hi0
    · intro hne
      rw [if_neg hLM]
      rw [hbf, arangeQ_headD _ _ _ hpos]
      norm_num
    · intro _
      constructor
      · rw [hbf]
        exact arangeQ_ne_nil _ _ _ hpos
      · rw [hbf, arangeQ_headD _ _ _ hpos]

/-- Witness for the amended C2 at a concrete input: the LOW policy applied
to the strictly increasing two-channel axis [1562500, 3125000]. -/
theorem planner_spacing_exact_and_start_bound_witness :
    ((("LOW" : String) = "LOW" ∨ ("LOW" : String) = "MID") ∧
      List.Chain' (fun x y => x < y) gtLowWit.frequency ∧
      2 ≤ gtLowWit.frequency.length) ∧
    ((∀ i (hi : i + 1 < (set_beamformer_frequencies gtLowWit (some "LOW")).length)
        (hi0 : i < (set_beamformer_frequencies gtLowWit (some "LOW")).length),
        (set_beamformer_frequencies gtLowWit (some "LOW")).get ⟨i + 1, hi⟩ -
          (set_beamformer_frequencies gtLowWit (some "LOW")).get ⟨i, hi0⟩ =
            (if ("LOW" : String) = "LOW" then 781250 else 300000000 / 4096)) ∧
    (set_beamformer_frequencies gtLowWit (some "LOW") ≠ [] →
      (set_beamformer_frequencies gtLowWit (some "LOW")).headD 0 ≤
        aminQ gtLowWit.frequency +
          (if ("LOW" : String) = "LOW" then 781250 else 300000000 / 4096) / 2) ∧
    (("LOW" : String) = "MID" → set_beamformer_frequencies gtLowWit (some "LOW") ≠ [] ∧
      (set_beamformer_frequencies gtLowWit (some "LOW")).headD 0 =
        aminQ gtLowWit.frequency)) := by
  have h1 : List.Chain' (fun x y => x < y) gtLowWit.frequency := by
    show List.Chain' (fun x y => x < y) [1562500, 3125000]
    simp only [List.chain'_cons, List.chain'_singleton, and_true]
    norm_num
  have h2 : 2 ≤ gtLowWit.frequency.length := by
    show 2 ≤ ([1562500, 3125000] : List ℚ).length
    simp
  exact ⟨⟨Or.inl rfl, h1, h2⟩,
    planner_spacing_exact_and_start_bound gtLowWit "LOW" (Or.inl rfl) h1 h2⟩

/-- C3: `expand_delay_phase` errors whenever the Jones type is not "K" or
the frequency axis does not have exactly one sample; on a valid input with
reference frequency `f0` it returns a table whose gain at channel `c`
(target frequency `f`) is `exp(i * (f - f0)/f0 * phase0)` in
reference-to-centre mode and `exp(i * f/f0 * phase0)` otherwise, where
`phase0` is the phase angle of the single input gain entry; the output
weight is all ones, the residual all zeros, the Jones type "B", and a
one-channel target equal to `f0` with reference-to-centre enabled yields
gain exactly 1. -/
theorem expand_delay_phase_spec (gt : GainTable) (freqs : List ℚ) (rtc : Bool) :
    ((gt.jones_type ≠ "K" ∨ gt.frequency.length ≠ 1) →
      ∃ e, expand_delay_phase gt freqs rtc = Except.error e) ∧
    (∀ f0 : ℚ, gt.jones_type = "K" → gt.frequency = [f0] →
      ∃ tp, expand_delay_phase gt freqs rtc = Except.ok tp ∧
        (∀ t a c r1 r2, c < freqs.length →
          tp.gain t a c r1 r2 =
            Complex.exp (Complex.I *
              (((if rtc then freqs.getD c 0 - f0 else freqs.getD c 0) : ℚ) : ℂ) /
              ((f0 : ℚ) : ℂ) * (((gt.gain t a 0 r1 r2).arg : ℝ) : ℂ))) ∧
        tp.weight = (fun _ _ _ _ _ => 1) ∧
        tp.residual = (fun _ _ _ _ => 0) ∧
        tp.jones_type = "B" ∧
        tp.frequency = freqs ∧
        (rtc = true → freqs = [f0] →
          ∀ t a r1 r2, tp.gain t a 0 r1 r2 = 1)) := by
  constructor
  · intro h
    unfold expand_delay_phase
    rcases h with h | h
    · rw [if_pos h]
      exact ⟨_, rfl⟩
    · by_cases hj : gt.jones_type ≠ "K"
      · rw [if_pos hj]
        exact ⟨_, rfl⟩
      · rw [if_neg hj, if_pos h]
        exact ⟨_, rfl⟩
  · intro f0 hj hf
    have hj' : ¬ gt.jones_type ≠ "K" := by simp [hj]
    have hlen : ¬ gt.frequency.length ≠ 1 := by rw [hf]; simp
    unfold expand_delay_phase
    rw [if_neg hj', if_neg hlen]
    refine ⟨_, rfl, ?_, rfl, rfl, rfl, rfl, ?_⟩
    · intro t a c r1 r2 _
      simp only [hf, List.headD_cons]
    · intro hrtc hfr t a r1 r2
      simp only [hf, hfr, hrtc, List.headD_cons, List.getD_cons_zero, if_true, sub_self]
      push_cast
      rw [mul_zero, zero_div, zero_mul, Complex.exp_zero]

/-- Witness for C3 at a concrete input: the K-table `gtK` with reference
frequency 2 Hz and constant gain `i`, expanded to the one-channel target
[2] in reference-to-centre mode. -/
theorem expand_delay_phase_spec_witness :
    gtK.jones_type = "K" ∧ gtK.frequency = [(2 : ℚ)] ∧
    ∃ tp, expand_delay_phase gtK [2] true = Except.ok tp ∧
      tp.weight = (fun _ _ _ _ _ => 1) ∧
      tp.residual = (fun _ _ _ _ => 0) ∧
      tp.jones_type = "B" ∧
      (∀ t a r1 r2, tp.gain t a 0 r1 r2 = 1) := by
  obtain ⟨tp, hok, _, hw, hres, hjt, _, hone⟩ :=
    (expand_delay_phase_spec gtK [2] true).2 2 rfl rfl
  exact ⟨rfl, rfl, tp, hok, hw, hres, hjt, hone rfl rfl⟩

lemma set_gaintable_product_shape_ok (t1 t2 : GainTable) (ew : Bool)
    (htime : t1.ntime = t2.ntime) (hant : t1.nants = t2.nants)
    (hchan : ¬(t1.nchan ≠ t2.nchan ∧ t1.nchan ≠ 1 ∧ t2.nchan ≠ 1))
    (hrec : if ew then t1.nrec1 = t2.nrec1 ∧ t1.nrec2 = t2.nrec2
            else t1.nrec2 = t2.nrec1) :
    set_gaintable_product_shape t1 t2 ew =
      Except.ok (t1.ntime, t1.nants, max t1.nchan t2.nchan,
        t1.nrec1, t2.nrec2) := by
  unfold set_gaintable_product_shape
  rw [if_neg (by simp [htime]), if_neg (by simp [hant]), if_neg hchan]
  cases ew with
  | false =>
      simp only [Bool.false_eq_true, if_false]
      rw [if_neg (by simp at hrec ⊢; exact hrec)]
  | true =>
      simp only [if_true]
      simp only [if_true] at hrec
      rw [if_neg (by simp [hrec.1]), if_neg (by simp [hrec.2])]

lemma set_gaintable_product_shape_error (t1 t2 : GainTable) (ew : Bool)
    (h : t1.ntime ≠ t2.ntime ∨ t1.nants ≠ t2.nants ∨
      (t1.nchan ≠ t2.nchan ∧ t1.nchan ≠ 1 ∧ t2.nchan ≠ 1) ∨
      (ew = true ∧ (t1.nrec1 ≠ t2.nrec1 ∨ t1.nrec2 ≠ t2.nrec2)) ∨
      (ew = false ∧ t1.nrec2 ≠ t2.nrec1)) :
    ∃ e, set_gaintable_product_shape t1 t2 ew = Except.error e := by
  unfold set_gaintable_product_shape
  by_cases h1 : t1.ntime ≠ t2.ntime
  · rw [if_pos h1]; exact ⟨_, rfl⟩
  · rw [if_neg h1]
    by_cases h2 : t1.nants ≠ t2.nants
    · rw [if_pos h2]; exact ⟨_, rfl⟩
    · rw [if_neg h2]
      by_cases h3 : t1.nchan ≠ t2.nchan ∧ t1.nchan ≠ 1 ∧ t2.nchan ≠ 1
      · rw [if_pos h3]; exact ⟨_, rfl⟩
      · rw [if_neg h3]
        cases ew with
        | false =>
            simp only [Bool.false_eq_true, if_false]
            have h5 : t1.nrec2 ≠ t2.nrec1 := by tauto
            rw [if_pos h5]
            exact ⟨_, rfl⟩
        | true =>
            simp only [if_true]
            have h4 : t1.nrec1 ≠ t2.nrec1 ∨ t1.nrec2 ≠ t2.nrec2 := by tauto
            by_cases h4a : t1.nrec1 ≠ t2.nrec1
            · rw [if_pos h4a]; exact ⟨_, rfl⟩
            · rw [if_neg h4a, if_pos (by tauto)]; exact ⟨_, rfl⟩

lemma multiply_gaintable_jones_ok_full (t1 t2 : GainTable) (ew : Bool)
    (hK : ¬(t1.jones_type = "K" ∨ t2.jones_type = "K"))
    (htime : t1.ntime = t2.ntime) (hant : t1.nants = t2.nants)
    (hchan : ¬(t1.nchan ≠ t2.nchan ∧ t1.nchan ≠ 1 ∧ t2.nchan ≠ 1))
    (hrec : if ew then t1.nrec1 = t2.nrec1 ∧ t1.nrec2 = t2.nrec2
            else t1.nrec2 = t2.nrec1) :
    ∃ tp, multiply_gaintable_jones t1 t2 ew = Except.ok tp ∧
      tp.ntime = t1.ntime ∧ tp.nants = t1.nants ∧
      tp.nchan = max t1.nchan t2.nchan ∧
      tp.nrec1 = t1.nrec1 ∧ tp.nrec2 = t2.nrec2 ∧
      (∀ t a c r1 r2, tp.gain t a c r1 r2 =
        if ew then
          t1.gain t a (if t1.nchan = 1 then 0 else c) r1 r2 *
            t2.gain t a (if t2.nchan = 1 then 0 else c) r1 r2
        else
          ∑ k ∈ Finset.range t1.nrec2,
            t1.gain t a (if t1.nchan = 1 then 0 else c) r1 k *
              t2.gain t a (if t2.nchan = 1 then 0 else c) k r2) ∧
      (1 < t1.nchan →
        tp.frequency = t1.frequency ∧ tp.weight = t1.weight ∧
          tp.residual = t1.residual) ∧
      (¬ 1 < t1.nchan →
        tp.frequency = t2.frequency ∧ tp.weight = t2.weight ∧
          tp.residual = t2.residual) ∧
      (t1.jones_type = t2.jones_type → tp.jones_type = t1.jones_type) ∧
      (t1.jones_type ≠ t2.jones_type → tp.jones_type = "B") := by
  have hshape := set_gaintable_product_shape_ok t1 t2 ew htime hant hchan hrec
  unfold multiply_gaintable_jones
  rw [if_neg hK, hshape]
  dsimp only
  by_cases hnc : 1 < t1.nchan
  · rw [if_pos hnc]
    refine ⟨_, rfl, rfl, rfl, rfl, rfl, rfl, fun _ _ _ _ _ => rfl,
      fun _ => ⟨rfl, rfl, rfl⟩, fun h => absurd hnc h, ?_, ?_⟩
    · intro h
      show (if t1.jones_type = t2.jones_type then t1.jones_type else "B") =
        t1.jones_type
      rw [if_pos h]
    · intro h
      show (if t1.jones_type = t2.jones_type then t1.jones_type else "B") = "B"
      rw [if_neg h]
  · rw [if_neg hnc]
    refine ⟨_, rfl, rfl, rfl, rfl, rfl, rfl, fun _ _ _ _ _ => rfl,
      fun h => absurd h hnc, fun _ => ⟨rfl, rfl, rfl⟩, ?_, ?_⟩
    · intro h
      show (if t1.jones_type = t2.jones_type then t1.jones_type else "B") =
        t1.jones_type
      rw [if_pos h]
    · intro h
      show (if t1.jones_type = t2.jones_type then t1.jones_type else "B") = "B"
      rw [if_neg h]

/-- C4: on every pair of GainTables passing the compatibility checks (and
the delay-type check), `multiply_gaintable_jones` returns a table of shape
(time, antenna, max(chan1, chan2), left receptor1, right receptor2) whose
per-(time, antenna, channel) matrix is the elementwise or matrix product
of the two (possibly single-channel-broadcast) input matrices; the
frequency/weight/residual metadata comes from the left operand when it
has more than one channel and from the right operand otherwise, and the
output Jones type is the shared type when the inputs agree and "B"
otherwise. -/
theorem multiply_gaintable_jones_spec (t1 t2 : GainTable) (ew : Bool)
    (hk1 : t1.jones_type ≠ "K") (hk2 : t2.jones_type ≠ "K")
    (htime : t1.ntime = t2.ntime) (hant : t1.nants = t2.nants)
    (hchan : t1.nchan = t2.nchan ∨ t1.nchan = 1 ∨ t2.nchan = 1)
    (hrecE : ew = true → t1.nrec1 = t2.nrec1 ∧ t1.nrec2 = t2.nrec2)
    (hrecM : ew = false → t1.nrec2 = t2.nrec1) :
    ∃ tp, multiply_gaintable_jones t1 t2 ew = Except.ok tp ∧
      tp.ntime = t1.ntime ∧ tp.nants = t1.nants ∧
      tp.nchan = max t1.nchan t2.nchan ∧
      tp.nrec1 = t1.nrec1 ∧ tp.nrec2 = t2.nrec2 ∧
      (∀ t a c r1 r2, tp.gain t a c r1 r2 =
        if ew then
          t1.gain t a (if t1.nchan = 1 then 0 else c) r1 r2 *
            t2.gain t a (if t2.nchan = 1 then 0 else c) r1 r2
        else
          ∑ k ∈ Finset.range t1.nrec2,
            t1.gain t a (if t1.nchan = 1 then 0 else c) r1 k *
              t2.gain t a (if t2.nchan = 1 then 0 else c) k r2) ∧
      (1 < t1.nchan →
        tp.frequency = t1.frequency ∧ tp.weight = t1.weight ∧
          tp.residual = t1.residual) ∧
      (¬ 1 < t1.nchan →
        tp.frequency = t2.frequency ∧ tp.weight = t2.weight ∧
          tp.residual = t2.residual) ∧
      (t1.jones_type = t2.jones_type → tp.jones_type = t1.jones_type) ∧
      (t1.jones_type ≠ t2.jones_type → tp.jones_type = "B") := by
  apply multiply_gaintable_jones_ok_full t1 t2 ew (by tauto) htime hant (by tauto)
  cases ew with
  | true => simpa using hrecE rfl
  | false => simpa using hrecM rfl

/-- Witness for C4 at a concrete input: a two-channel "G" table matrix-
multiplied by a single-channel "B" table of matching receptor shape. -/
theorem multiply_gaintable_jones_spec_witness :
    (gtMulA.jones_type ≠ "K" ∧ gtMulB.jones_type ≠ "K" ∧
      gtMulA.ntime = gtMulB.ntime ∧ gtMulA.nants = gtMulB.nants ∧
      (gtMulA.nchan = gtMulB.nchan ∨ gtMulA.nchan = 1 ∨ gtMulB.nchan = 1) ∧
      gtMulA.nrec2 = gtMulB.nrec1) ∧
    ∃ tp, multiply_gaintable_jones gtMulA gtMulB false = Except.ok tp ∧
      tp.nchan = 2 ∧ tp.nrec1 = 2 ∧ tp.nrec2 = 2 ∧ tp.jones_type = "B" ∧
      tp.frequency = gtMulA.frequency := by
  obtain ⟨tp, hok, hnt, hna, hnc, hr1, hr2, hg, hmeta1, hmeta2, hjt1, hjt2⟩ :=
    multiply_gaintable_jones_spec gtMulA gtMulB false (by decide) (by decide)
      rfl rfl (Or.inr (Or.inr rfl)) (fun h => Bool.noConfusion h) (fun _ => rfl)
  refine ⟨⟨by decide, by decide, rfl, rfl, Or.inr (Or.inr rfl), rfl⟩,
    tp, hok, ?_, hr1, hr2, hjt2 (by decide), (hmeta1 (by decide)).1⟩
  rw [hnc]
  rfl

/-- C5: `multiply_gaintable_jones` returns an error (so no product table)
exactly when one of the inputs has Jones type "K", the time axes differ,
the antenna axes differ, the channel axes differ with neither equal to 1,
elementwise mode is requested with differing receptor dimensions, or
matrix mode is in effect with the left receptor2 dimension different from
the right receptor1 dimension. -/
theorem multiply_gaintable_jones_error_iff (t1 t2 : GainTable) (ew : Bool) :
    (∃ e, multiply_gaintable_jones t1 t2 ew = Except.error e) ↔
      ((t1.jones_type = "K" ∨ t2.jones_type = "K") ∨
        t1.ntime ≠ t2.ntime ∨ t1.nants ≠ t2.nants ∨
        (t1.nchan ≠ t2.nchan ∧ t1.nchan ≠ 1 ∧ t2.nchan ≠ 1) ∨
        (ew = true ∧ (t1.nrec1 ≠ t2.nrec1 ∨ t1.nrec2 ≠ t2.nrec2)) ∨
        (ew = false ∧ t1.nrec2 ≠ t2.nrec1)) := by
  constructor
  · rintro ⟨e, he⟩
    by_contra hcon
    have hK : ¬(t1.jones_type = "K" ∨ t2.jones_type = "K") :=
      fun hk => hcon (Or.inl hk)
    have htime : t1.ntime = t2.ntime := by
      by_contra hc; exact hcon (Or.inr (Or.inl hc))
    have hant : t1.nants = t2.nants := by
      by_contra hc; exact hcon (Or.inr (Or.inr (Or.inl hc)))
    have hchan : ¬(t1.nchan ≠ t2.nchan ∧ t1.nchan ≠ 1 ∧ t2.nchan ≠ 1) :=
      fun hc => hcon (Or.inr (Or.inr (Or.inr (Or.inl hc))))
    have hrec : if ew then t1.nrec1 = t2.nrec1 ∧ t1.nrec2 = t2.nrec2
        else t1.nrec2 = t2.nrec1 := by
      cases ew with
      | true =>
          simp only [if_true]
          constructor
          · by_contra hc
            exact hcon (Or.inr (Or.inr (Or.inr (Or.inr (Or.inl ⟨rfl, Or.inl hc⟩)))))
          · by_contra hc
            exact hcon (Or.inr (Or.inr (Or.inr (Or.inr (Or.inl ⟨rfl, Or.inr hc⟩)))))
      | false =>
          simp only [Bool.false_eq_true, if_false]
          by_contra hc
          exact hcon (Or.inr (Or.inr (Or.inr (Or.inr (Or.inr ⟨rfl, hc⟩)))))
    obtain ⟨tp, hok, _⟩ :=
      multiply_gaintable_jones_ok_full t1 t2 ew hK htime hant hchan hrec
    rw [hok] at he
    exact Except.noConfusion he
  · intro h
    by_cases hK : t1.jones_type = "K" ∨ t2.jones_type = "K"
    · refine ⟨"Cannot multiply delays. Use expand_delay_phase", ?_⟩
      unfold multiply_gaintable_jones
      rw [if_pos hK]
    · have h' : t1.ntime ≠ t2.ntime ∨ t1.nants ≠ t2.nants ∨
          (t1.nchan ≠ t2.nchan ∧ t1.nchan ≠ 1 ∧ t2.nchan ≠ 1) ∨
          (ew = true ∧ (t1.nrec1 ≠ t2.nrec1 ∨ t1.nrec2 ≠ t2.nrec2)) ∨
          (ew = false ∧ t1.nrec2 ≠ t2.nrec1) := by tauto
      obtain ⟨e, hse⟩ := set_gaintable_product_shape_error t1 t2 ew h'
      refine ⟨e, ?_⟩
      unfold multiply_gaintable_jones
      rw [if_neg hK, hse]

/-- C1 (code bug): in apply-only mode each qualifying tag's correction is
applied to the ORIGINAL input visibility, overwriting the accumulator, so
only the last qualifying tag's correction survives.  With the apply
collaborator `f v g = 10 * v + g`, visibility 0, stored tables T -> 1 and
G -> 2, context "TG", default controls (`first_selfcal` 0 for both) and
iteration 0, the code returns `f 0 2 = 2`, not the cumulative
`f (f 0 1) 2 = 12` required by the claim. -/
theorem apply_calibration_chain_applies_only_last_tag :
    apply_calibration_chain (fun (v g : ℕ) => 10 * v + g) 0
        (fun c => if c = 'T' then some 1 else if c = 'G' then some 2 else none)
        ['T', 'G'] create_calibration_controls 0 =
      Except.ok ((fun (v g : ℕ) => 10 * v + g) 0 2) ∧
    (fun (v g : ℕ) => 10 * v + g) 0 2 ≠
      (fun (v g : ℕ) => 10 * v + g) ((fun (v g : ℕ) => 10 * v + g) 0 1) 2 := by
  exact ⟨rfl, by norm_num⟩

lemma chainChangesAux_eq {G : Type} (gaintables : Char → Option G)
    (controls : Char → Option CalControl) (iteration : ℤ) :
    ∀ (cs : List Char) (b : Bool), (∀ c ∈ cs, (controls c).isSome) →
      chainChangesAux gaintables controls iteration cs b =
        Except.ok (b || cs.any fun c =>
          gatePasses controls iteration c && (gaintables c).isSome) := by
  intro cs
  induction cs with
  | nil => intro b _; simp [chainChangesAux]
  | cons c cs ih =>
      intro b hctl
      obtain ⟨ctrl, hctrl⟩ :=
        Option.isSome_iff_exists.mp (hctl c (List.mem_cons_self c cs))
      rw [chainChangesAux]
      rw [hctrl]
      dsimp only
      rw [ih _ (fun x hx => hctl x (List.mem_cons_of_mem c hx))]
      congr 1
      simp only [List.any_cons, gatePasses, hctrl]
      rw [Bool.or_assoc]

lemma chainApplyAux_keyerror {V G : Type} (apply_gaintable : V → G → V)
    (vis : V) (gaintables : Char → Option G)
    (controls : Char → Option CalControl) (iteration : ℤ) :
    ∀ (cs : List Char) (avis : Option V),
      (∀ c ∈ cs, (controls c).isSome) →
      (∃ c ∈ cs, gatePasses controls iteration c = true ∧ gaintables c = none) →
      chainApplyAux apply_gaintable vis gaintables controls iteration cs avis =
        Except.error "KeyError gaintables" := by
  intro cs
  induction cs with
  | nil =>
      rintro avis _ ⟨c, hc, _⟩
      exact absurd hc (List.not_mem_nil c)
  | cons c cs ih =>
      intro avis hctl hex
      obtain ⟨ctrl, hctrl⟩ :=
        Option.isSome_iff_exists.mp (hctl c (List.mem_cons_self c cs))
      rw [chainApplyAux, hctrl]
      dsimp only
      by_cases hgate : ctrl.first_selfcal ≤ iteration
      · rw [if_pos hgate]
        cases hgt : gaintables c with
        | none => rfl
        | some g =>
            obtain ⟨x, hx, hg', hn'⟩ := hex
            rcases List.mem_cons.mp hx with rfl | hmem
            · rw [hgt] at hn'
              exact Option.noConfusion hn'
            · exact ih _ (fun y hy => hctl y (List.mem_cons_of_mem c hy))
                ⟨x, hmem, hg', hn'⟩
      · rw [if_neg hgate]
        obtain ⟨x, hx, hg', hn'⟩ := hex
        rcases List.mem_cons.mp hx with rfl | hmem
        · simp only [gatePasses, hctrl, decide_eq_true_eq] at hg'
          exact absurd hg' hgate
        · exact ih _ (fun y hy => hctl y (List.mem_cons_of_mem c hy))
            ⟨x, hmem, hg', hn'⟩

/-- C9: whenever the controls cover the context, some context tag passes
the iteration gate with a stored gain table (so the apply pass runs), and
some context tag passes the iteration gate without a stored gain table,
`apply_calibration_chain` raises `KeyError` instead of returning a
result: the apply loop indexes the mapping with every tag passing the
iteration gate alone. -/
theorem apply_calibration_chain_keyerror {V G : Type}
    (apply_gaintable : V → G → V) (vis : V) (gaintables : Char → Option G)
    (calibration_context : List Char) (controls : Char → Option CalControl)
    (iteration : ℤ)
    (hctl : ∀ c ∈ calibration_context, (controls c).isSome)
    (h1 : ∃ c ∈ calibration_context, gatePasses controls iteration c = true ∧
      (gaintables c).isSome = true)
    (h2 : ∃ c ∈ calibration_context, gatePasses controls iteration c = true ∧
      gaintables c = none) :
    apply_calibration_chain apply_gaintable vis gaintables calibration_context
        controls iteration = Except.error "KeyError gaintables" := by
  unfold apply_calibration_chain
  rw [chainChangesAux_eq gaintables controls iteration calibration_context
    false hctl]
  have hchanges : (false || calibration_context.any fun c =>
      gatePasses controls iteration c && (gaintables c).isSome) = true := by
    obtain ⟨c, hc, hg, hs⟩ := h1
    simp only [Bool.false_or, List.any_eq_true]
    exact ⟨c, hc, by simp [hg, hs]⟩
  rw [hchanges]
  dsimp only
  rw [chainApplyAux_keyerror apply_gaintable vis gaintables controls iteration
    calibration_context none hctl h2]
  rfl

/-- Witness for C9 at a concrete input: context "TG" with default
controls, iteration 0, a stored table for T and none for G. -/
theorem apply_calibration_chain_keyerror_witness :
    ((∀ c ∈ ['T', 'G'], (create_calibration_controls c).isSome) ∧
      (∃ c ∈ ['T', 'G'], gatePasses create_calibration_controls 0 c = true ∧
        ((fun x => if x = 'T' then some (1 : ℕ) else none) c).isSome = true) ∧
      (∃ c ∈ ['T', 'G'], gatePasses create_calibration_controls 0 c = true ∧
        (fun x => if x = 'T' then some (1 : ℕ) else none) c = none)) ∧
    apply_calibration_chain (fun (v g : ℕ) => 10 * v + g) 0
        (fun x => if x = 'T' then some (1 : ℕ) else none)
        ['T', 'G'] create_calibration_controls 0 =
      Except.error "KeyError gaintables" := by
  refine ⟨⟨by decide, ⟨'T', by simp, by decide, by decide⟩,
    ⟨'G', by simp, by decide, by decide⟩⟩, ?_⟩
  exact apply_calibration_chain_keyerror _ _ _ _ _ _ (by decide)
    ⟨'T', by simp, by decide, by decide⟩ ⟨'G', by simp, by decide, by decide⟩

/-- C8: in solve-and-apply mode with context "TGB", `first_selfcal` 0 for
T, 3 for G and 4 for B, and iteration 2, only T is solved: the result is
the input visibility with the solved T-table's inverse correction applied
and the mapping updated at T alone; the stored entries for G and B are
returned unchanged. -/
theorem calibrate_chain_TGB_iteration2 {V G : Type}
    (create_gaintable : V → Option ℚ → Char → G)
    (solve_gaintable : V → Option V → G → Bool → Bool → Option ℚ → ℚ → G)
    (apply_gaintable : V → G → Bool → V)
    (vis : V) (model_vis : Option V) (gaintables : Char → Option G) (tol : ℚ)
    (ctrlT ctrlG ctrlB : CalControl)
    (hT : ctrlT.first_selfcal = 0) (hG : ctrlG.first_selfcal = 3)
    (hB : ctrlB.first_selfcal = 4) :
    calibrate_chain create_gaintable solve_gaintable apply_gaintable vis
        model_vis gaintables ['T', 'G', 'B']
        (fun c => if c = 'T' then some ctrlT else if c = 'G' then some ctrlG
          else if c = 'B' then some ctrlB else none) 2 tol =
      Except.ok
        (apply_gaintable vis (solve_gaintable vis model_vis
            ((gaintables 'T').getD (create_gaintable vis ctrlT.timeslice 'T'))
            ctrlT.phase_only (ctrlT.shape == "matrix") ctrlT.timeslice tol)
          true,
         updMap gaintables 'T' (solve_gaintable vis model_vis
            ((gaintables 'T').getD (create_gaintable vis ctrlT.timeslice 'T'))
            ctrlT.phase_only (ctrlT.shape == "matrix") ctrlT.timeslice tol)) ∧
    updMap gaintables 'T' (solve_gaintable vis model_vis
        ((gaintables 'T').getD (create_gaintable vis ctrlT.timeslice 'T'))
        ctrlT.phase_only (ctrlT.shape == "matrix") ctrlT.timeslice tol) 'G' =
      gaintables 'G' ∧
    updMap gaintables 'T' (solve_gaintable vis model_vis
        ((gaintables 'T').getD (create_gaintable vis ctrlT.timeslice 'T'))
        ctrlT.phase_only (ctrlT.shape == "matrix") ctrlT.timeslice tol) 'B' =
      gaintables 'B' := by
  obtain ⟨sT, tT, pT, fT⟩ := ctrlT
  obtain ⟨sG, tG, pG, fG⟩ := ctrlG
  obtain ⟨sB, tB, pB, fB⟩ := ctrlB
  dsimp only at hT hG hB
  subst hT hG hB
  exact ⟨rfl, rfl, rfl⟩

/-- Witness for C8 at concrete inputs: natural-number visibilities and
gain tables, solver `g + 1`, apply collaborator `1000 * v + g`, empty
mapping, solving T only. -/
theorem calibrate_chain_TGB_iteration2_witness :
    ((⟨"scalar", none, true, 0⟩ : CalControl).first_selfcal = 0 ∧
      (⟨"vector", some 60, false, 3⟩ : CalControl).first_selfcal = 3 ∧
      (⟨"vector", some 100000, false, 4⟩ : CalControl).first_selfcal = 4) ∧
    calibrate_chain (fun (_ : ℕ) (_ : Option ℚ) (_ : Char) => (100 : ℕ))
        (fun _ _ g _ _ _ _ => g + 1) (fun v g _ => 1000 * v + g) 5 none
        (fun _ => (none : Option ℕ)) ['T', 'G', 'B']
        (fun c => if c = 'T' then some ⟨"scalar", none, true, 0⟩
          else if c = 'G' then some ⟨"vector", some 60, false, 3⟩
          else if c = 'B' then some ⟨"vector", some 100000, false, 4⟩
          else none) 2 1 =
      Except.ok (5101, updMap (fun _ => (none : Option ℕ)) 'T' 101) := by
  refine ⟨⟨rfl, rfl, rfl⟩, ?_⟩
  have h := (calibrate_chain_TGB_iteration2
    (fun (_ : ℕ) (_ : Option ℚ) (_ : Char) => (100 : ℕ))
    (fun _ _ g _ _ _ _ => g + 1) (fun v g _ => 1000 * v + g) 5 none
    (fun _ => (none : Option ℕ)) 1 ⟨"scalar", none, true, 0⟩
    ⟨"vector", some 60, false, 3⟩ ⟨"vector", some 100000, false, 4⟩
    rfl rfl rfl).1
  exact h

lemma solveChainStep_ne {V G : Type} (mfw mv : V → ℚ)
    (cg : V → Option ℚ → Char → G)
    (sg : V → Option V → G → Bool → Bool → Option ℚ → ℚ → G)
    (vis : V) (amvis : Option V) (tol : ℚ) (ctrl : CalControl) (it : ℤ)
    (c : Char) (gts : Char → Option G) (x : Char) (hx : x ≠ c) :
    solveChainStep mfw mv cg sg vis amvis tol ctrl it c gts x = gts x := by
  unfold solveChainStep updMap
  split_ifs <;> simp [hx]

lemma solveChainStep_self_isSome {V G : Type} (mfw mv : V → ℚ)
    (cg : V → Option ℚ → Char → G)
    (sg : V → Option V → G → Bool → Bool → Option ℚ → ℚ → G)
    (vis : V) (amvis : Option V) (tol : ℚ) (ctrl : CalControl) (it : ℤ)
    (c : Char) (gts : Char → Option G) :
    (solveChainStep mfw mv cg sg vis amvis tol ctrl it c gts c).isSome := by
  unfold solveChainStep updMap
  split_ifs <;> simp

lemma solveChainStep_preserves_isSome {V G : Type} (mfw mv : V → ℚ)
    (cg : V → Option ℚ → Char → G)
    (sg : V → Option V → G → Bool → Bool → Option ℚ → ℚ → G)
    (vis : V) (amvis : Option V) (tol : ℚ) (ctrl : CalControl) (it : ℤ)
    (c : Char) (gts : Char → Option G) (x : Char)
    (hx : (gts x).isSome) :
    (solveChainStep mfw mv cg sg vis amvis tol ctrl it c gts x).isSome := by
  by_cases hxc : x = c
  · subst hxc
    exact solveChainStep_self_isSome mfw mv cg sg vis amvis tol ctrl it x gts
  · rw [solveChainStep_ne mfw mv cg sg vis amvis tol ctrl it c gts x hxc]
    exact hx

lemma solveChainStep_gate_fail {V G : Type} (mfw mv : V → ℚ)
    (cg : V → Option ℚ → Char → G)
    (sg : V → Option V → G → Bool → Bool → Option ℚ → ℚ → G)
    (vis : V) (amvis : Option V) (tol : ℚ) (ctrl : CalControl) (it : ℤ)
    (c : Char) (gts : Char → Option G)
    (hgate : dataValid mfw mv vis amvis = false) (x : Char) (g : G)
    (hg : gts x = some g) :
    solveChainStep mfw mv cg sg vis amvis tol ctrl it c gts x = some g := by
  unfold solveChainStep updMap
  rw [hgate]
  simp only [Bool.false_eq_true, if_false, ite_self]
  by_cases hxc : x = c
  · subst hxc
    simp [hg]
  · simp [hxc, hg]

lemma solveChainStep_solver_irrelevant {V G : Type} (mfw mv : V → ℚ)
    (cg : V → Option ℚ → Char → G)
    (sg1 sg2 : V → Option V → G → Bool → Bool → Option ℚ → ℚ → G)
    (vis : V) (amvis : Option V) (tol : ℚ) (ctrl : CalControl) (it : ℤ)
    (c : Char) (gts : Char → Option G)
    (hgate : dataValid mfw mv vis amvis = false) :
    solveChainStep mfw mv cg sg1 vis amvis tol ctrl it c gts =
      solveChainStep mfw mv cg sg2 vis amvis tol ctrl it c gts := by
  unfold solveChainStep
  rw [hgate]
  simp only [Bool.false_eq_true, if_false]

lemma solveChainStep_skip_fresh {V G : Type} (mfw mv : V → ℚ)
    (cg : V → Option ℚ → Char → G)
    (sg : V → Option V → G → Bool → Bool → Option ℚ → ℚ → G)
    (vis : V) (amvis : Option V) (tol : ℚ) (ctrl : CalControl) (it : ℤ)
    (c : Char) (gts : Char → Option G)
    (hit : it < ctrl.first_selfcal)
    (h : gts c = none ∨ gts c = some (cg vis ctrl.timeslice c)) :
    solveChainStep mfw mv cg sg vis amvis tol ctrl it c gts c =
      some (cg vis ctrl.timeslice c) := by
  unfold solveChainStep updMap
  rw [if_neg (by omega : ¬ ctrl.first_selfcal ≤ it)]
  rcases h with h | h <;> simp [h]

lemma solveChainAux_solver_irrelevant {V G : Type} (mfw mv : V → ℚ)
    (cg : V → Option ℚ → Char → G)
    (sg1 sg2 : V → Option V → G → Bool → Bool → Option ℚ → ℚ → G)
    (vis : V) (amvis : Option V) (tol : ℚ)
    (ctl : Char → Option CalControl) (it : ℤ)
    (hgate : dataValid mfw mv vis amvis = false) :
    ∀ (cs : List Char) (gts : Char → Option G),
      solveChainAux mfw mv cg sg1 vis amvis tol ctl it cs gts =
        solveChainAux mfw mv cg sg2 vis amvis tol ctl it cs gts := by
  intro cs
  induction cs with
  | nil => intro gts; rfl
  | cons c cs ih =>
      intro gts
      rw [solveChainAux, solveChainAux]
      cases hctl : ctl c with
      | none => rfl
      | some ctrl =>
          dsimp only
          rw [solveChainStep_solver_irrelevant mfw mv cg sg1 sg2 vis amvis tol
            ctrl it c gts hgate]
          exact ih _

lemma solveChainAux_gate_fail_preserves {V G : Type} (mfw mv : V → ℚ)
    (cg : V → Option ℚ → Char → G)
    (sg : V → Option V → G → Bool → Bool → Option ℚ → ℚ → G)
    (vis : V) (amvis : Option V) (tol : ℚ)
    (ctl : Char → Option CalControl) (it : ℤ)
    (hgate : dataValid mfw mv vis amvis = false) :
    ∀ (cs : List Char) (gts m : Char → Option G),
      solveChainAux mfw mv cg sg vis amvis tol ctl it cs gts = Except.ok m →
      ∀ x g, gts x = some g → m x = some g := by
  intro cs
  induction cs with
  | nil =>
      intro gts m hm x g hg
      rw [solveChainAux] at hm
      injection hm with h
      rw [← h]
      exact hg
  | cons c cs ih =>
      intro gts m hm x g hg
      rw [solveChainAux] at hm
      cases hctl : ctl c with
      | none =>
          rw [hctl] at hm
          exact Except.noConfusion hm
      | some ctrl =>
          rw [hctl] at hm
          dsimp only at hm
          exact ih _ m hm x g
            (solveChainStep_gate_fail mfw mv cg sg vis amvis tol ctrl it c gts
              hgate x g hg)

lemma solveChainAux_ok_all {V G : Type} (mfw mv : V → ℚ)
    (cg : V → Option ℚ → Char → G)
    (sg : V → Option V → G → Bool → Bool → Option ℚ → ℚ → G)
    (vis : V) (amvis : Option V) (tol : ℚ)
    (ctl : Char → Option CalControl) (it : ℤ) :
    ∀ (cs : List Char) (gts : Char → Option G),
      (∀ c ∈ cs, (ctl c).isSome) →
      ∃ m, solveChainAux mfw mv cg sg vis amvis tol ctl it cs gts =
          Except.ok m ∧
        (∀ x, (gts x).isSome → (m x).isSome) ∧
        (∀ x ∈ cs, (m x).isSome) ∧
        (∀ x ctrl, ctl x = some ctrl → it < ctrl.first_selfcal →
          ((x ∈ cs ∧ gts x = none) ∨
            gts x = some (cg vis ctrl.timeslice x)) →
          m x = some (cg vis ctrl.timeslice x)) := by
  intro cs
  induction cs with
  | nil =>
      intro gts _
      refine ⟨gts, rfl, fun x hx => hx, fun x hx => absurd hx (List.not_mem_nil x), ?_⟩
      intro x ctrl _ _ hcase
      rcases hcase with ⟨hmem, _⟩ | hsome
      · exact absurd hmem (List.not_mem_nil x)
      · exact hsome
  | cons c cs ih =>
      intro gts hctl
      obtain ⟨ctrl, hctrl⟩ :=
        Option.isSome_iff_exists.mp (hctl c (List.mem_cons_self c cs))
      rw [solveChainAux, hctrl]
      dsimp only
      obtain ⟨m, hm, hpres, hmem, hfresh⟩ :=
        ih (solveChainStep mfw mv cg sg vis amvis tol ctrl it c gts)
          (fun x hx => hctl x (List.mem_cons_of_mem c hx))
      refine ⟨m, hm, ?_, ?_, ?_⟩
      · intro x hx
        exact hpres x
          (solveChainStep_preserves_isSome mfw mv cg sg vis amvis tol ctrl it
            c gts x hx)
      · intro x hx
        rcases List.mem_cons.mp hx with rfl | hx'
        · exact hpres x
            (solveChainStep_self_isSome mfw mv cg sg vis amvis tol ctrl it x gts)
        · exact hmem x hx'
      · intro x ctrl' hctl' hit hcase
        apply hfresh x ctrl' hctl' hit
        by_cases hxc : x = c
        · subst hxc
          rw [hctrl] at hctl'
          injection hctl' with h
          subst h
          refine Or.inr ?_
          apply solveChainStep_skip_fresh mfw mv cg sg vis amvis tol ctrl it
            x gts hit
          rcases hcase with ⟨_, hnone⟩ | hsome
          · exact Or.inl hnone
          · exact Or.inr hsome
        · have hstep :=
            solveChainStep_ne mfw mv cg sg vis amvis tol ctrl it c gts x hxc
          rcases hcase with ⟨hmem', hnone⟩ | hsome
          · rcases List.mem_cons.mp hmem' with rfl | hx'
            · exact absurd rfl hxc
            · exact Or.inl ⟨hx', by rw [hstep]; exact hnone⟩
          · exact Or.inr (by rw [hstep]; exact hsome)

/-- C6: in conditional-solve mode, when the data-validity gate fails (no
strictly positive flagged-weight maximum in the observed visibility, or a
supplied model whose maximum absolute visibility is not strictly
positive), the solver is never invoked — the result is identical for any
two solver collaborators — and every stored gain table is returned
untouched in the mapping; the function returns only the mapping and never
applies a correction to the visibility (its embedding has no apply
collaborator at all). -/
theorem solve_calibrate_chain_gate_fail_frame {V G : Type}
    (maxAbsFlaggedWeight maxAbsVis : V → ℚ)
    (create_gaintable : V → Option ℚ → Char → G)
    (solve_gaintable solve_gaintable' :
      V → Option V → G → Bool → Bool → Option ℚ → ℚ → G)
    (vis : V) (model_vis : Option V) (gaintables : Char → Option G)
    (calibration_context : List Char) (controls : Char → Option CalControl)
    (iteration : ℤ) (tol : ℚ)
    (hgate : dataValid maxAbsFlaggedWeight maxAbsVis vis model_vis = false) :
    solve_calibrate_chain maxAbsFlaggedWeight maxAbsVis create_gaintable
        solve_gaintable vis model_vis gaintables calibration_context controls
        iteration tol =
      solve_calibrate_chain maxAbsFlaggedWeight maxAbsVis create_gaintable
        solve_gaintable' vis model_vis gaintables calibration_context controls
        iteration tol ∧
    (∀ m, solve_calibrate_chain maxAbsFlaggedWeight maxAbsVis create_gaintable
        solve_gaintable vis model_vis gaintables calibration_context controls
        iteration tol = Except.ok m →
      ∀ c g, gaintables c = some g → m c = some g) := by
  constructor
  · exact solveChainAux_solver_irrelevant maxAbsFlaggedWeight maxAbsVis
      create_gaintable solve_gaintable solve_gaintable' vis model_vis tol
      controls iteration hgate calibration_context gaintables
  · intro m hm c g hg
    exact solveChainAux_gate_fail_preserves maxAbsFlaggedWeight maxAbsVis
      create_gaintable solve_gaintable vis model_vis tol controls iteration
      hgate calibration_context gaintables m hm c g hg

/-- Witness for C6 at concrete inputs: flagged-weight maximum 0 (gate
fails), two different solvers, a stored T table. -/
theorem solve_calibrate_chain_gate_fail_frame_witness :
    dataValid (fun (_ : ℕ) => (0 : ℚ)) (fun _ => 1) 5 none = false ∧
    (solve_calibrate_chain (fun (_ : ℕ) => (0 : ℚ)) (fun _ => 1)
        (fun (_ : ℕ) (_ : Option ℚ) (_ : Char) => (100 : ℕ))
        (fun _ _ g _ _ _ _ => g + 1) 5 none
        (fun x => if x = 'T' then some (7 : ℕ) else none) ['T', 'G']
        create_calibration_controls 0 1 =
      solve_calibrate_chain (fun (_ : ℕ) => (0 : ℚ)) (fun _ => 1)
        (fun (_ : ℕ) (_ : Option ℚ) (_ : Char) => (100 : ℕ))
        (fun _ _ g _ _ _ _ => g + 2) 5 none
        (fun x => if x = 'T' then some (7 : ℕ) else none) ['T', 'G']
        create_calibration_controls 0 1) ∧
    (∀ m, solve_calibrate_chain (fun (_ : ℕ) => (0 : ℚ)) (fun _ => 1)
        (fun (_ : ℕ) (_ : Option ℚ) (_ : Char) => (100 : ℕ))
        (fun _ _ g _ _ _ _ => g + 1) 5 none
        (fun x => if x = 'T' then some (7 : ℕ) else none) ['T', 'G']
        create_calibration_controls 0 1 = Except.ok m →
      ∀ c g, (fun x => if x = 'T' then some (7 : ℕ) else none) c = some g →
        m c = some g) := by
  have h := solve_calibrate_chain_gate_fail_frame (fun (_ : ℕ) => (0 : ℚ))
    (fun _ => 1) (fun (_ : ℕ) (_ : Option ℚ) (_ : Char) => (100 : ℕ))
    (fun _ _ g _ _ _ _ => g + 1) (fun _ _ g _ _ _ _ => g + 2) 5 none
    (fun x => if x = 'T' then some (7 : ℕ) else none) ['T', 'G']
    create_calibration_controls 0 1 rfl
  exact ⟨rfl, h.1, h.2⟩

/-- C10: `solve_calibrate_chain` creates and inserts a gain table for
every context tag missing from the mapping before the iteration and
data-validity gates are evaluated; consequently (when the controls cover
the context, else `KeyError`) the returned mapping has an entry for every
context tag, and a tag that was skipped by the iteration gate with no
stored entry maps to exactly the freshly created table. -/
theorem solve_calibrate_chain_inserts_all {V G : Type}
    (maxAbsFlaggedWeight maxAbsVis : V → ℚ)
    (create_gaintable : V → Option ℚ → Char → G)
    (solve_gaintable : V → Option V → G → Bool → Bool → Option ℚ → ℚ → G)
    (vis : V) (model_vis : Option V) (gaintables : Char → Option G)
    (calibration_context : List Char) (controls : Char → Option CalControl)
    (iteration : ℤ) (tol : ℚ)
    (hctl : ∀ c ∈ calibration_context, (controls c).isSome) :
    ∃ m, solve_calibrate_chain maxAbsFlaggedWeight maxAbsVis create_gaintable
        solve_gaintable vis model_vis gaintables calibration_context controls
        iteration tol = Except.ok m ∧
      (∀ c ∈ calibration_context, (m c).isSome) ∧
      (∀ c ctrl, controls c = some ctrl → iteration < ctrl.first_selfcal →
        c ∈ calibration_context → gaintables c = none →
        m c = some (create_gaintable vis ctrl.timeslice c)) := by
  obtain ⟨m, hm, _, hmem, hfresh⟩ := solveChainAux_ok_all maxAbsFlaggedWeight
    maxAbsVis create_gaintable solve_gaintable vis model_vis tol controls
    iteration calibration_context gaintables hctl
  exact ⟨m, hm, hmem,
    fun c ctrl h1 h2 h3 h4 => hfresh c ctrl h1 h2 (Or.inl ⟨h3, h4⟩)⟩

/-- Witness for C10 at concrete inputs: empty mapping, context "TG",
default controls, iteration -1 (every tag below its `first_selfcal`). -/
theorem solve_calibrate_chain_inserts_all_witness :
    (∀ c ∈ ['T', 'G'], (create_calibration_controls c).isSome) ∧
    ∃ m, solve_calibrate_chain (fun (_ : ℕ) => (1 : ℚ)) (fun _ => 1)
        (fun (_ : ℕ) (_ : Option ℚ) (_ : Char) => (42 : ℕ))
        (fun _ _ g _ _ _ _ => g + 1) 5 none (fun _ => (none : Option ℕ))
        ['T', 'G'] create_calibration_controls (-1) 1 = Except.ok m ∧
      (∀ c ∈ ['T', 'G'], (m c).isSome) ∧
      (∀ c ctrl, create_calibration_controls c = some ctrl →
        (-1 : ℤ) < ctrl.first_selfcal → c ∈ ['T', 'G'] →
        (fun _ => (none : Option ℕ)) c = none →
        m c = some ((fun (_ : ℕ) (_ : Option ℚ) (_ : Char) => (42 : ℕ)) 5
          ctrl.timeslice c)) := by
  refine ⟨by decide, ?_⟩
  exact solve_calibrate_chain_inserts_all (fun (_ : ℕ) => (1 : ℚ)) (fun _ => 1)
    (fun (_ : ℕ) (_ : Option ℚ) (_ : Char) => (42 : ℕ))
    (fun _ _ g _ _ _ _ => g + 1) 5 none (fun _ => (none : Option ℕ))
    ['T', 'G'] create_calibration_controls (-1) 1 (by decide)
